import Mathlib

/-!
Minnal: the version function of the PostgreSQL extension.

Embedding of `src/extension/src/pg_minnal.cpp`.  The file defines one SQL-callable
function, `minnal_version`, with the version-1 calling convention:

    auto minnal_version(PG_FUNCTION_ARGS) -> Datum {
      const char *version = MINNAL_VERSION;
      PG_RETURN_TEXT_P(cstring_to_text(version));
    }

What the function uses from the host (PostgreSQL) is modelled here as far as the
function touches it:

* `MINNAL_VERSION` is a macro supplied by the build; it is a parameter of the model,
  a C string (`CString`);
* `cstring_to_text` measures its argument with `strlen`, allocates a `text`
  (a varlena: a length word and the bytes) with `palloc`, sets the length word and
  copies the bytes;
* `PG_RETURN_TEXT_P(x)` is `return PointerGetDatum(x)`; it does not write to `fcinfo`;
* `PG_FUNCTION_ARGS` is the single parameter `FunctionCallInfo fcinfo`.

State is passed explicitly: the call info the host hands in and the memory context
the function allocates in.  Memory is unbounded in the model: `palloc` always yields
a fresh chunk, and lengths are natural numbers.
-/

namespace Minnal

/-! ## C strings -/

/-- One C `char`: an octet. -/
abbrev Byte := Fin 256

/-- A C string: the bytes before the terminating NUL.  None of them is NUL, since the
first NUL is where the string ends. -/
structure CString where
  bytes : List Byte
  no_nul : (0 : Byte) ∉ bytes

/-- The array a string literal occupies: its bytes followed by the terminating NUL. -/
def CString.storage (s : CString) : List Byte :=
  s.bytes ++ [0]

/-- C `strlen` on the memory that starts at the pointer: the number of bytes before the
first NUL.  Running off the end of the object without meeting a NUL is undefined in C;
the model returns `none`. -/
def strlen : List Byte → Option Nat
  | [] => none
  | c :: rest => if c = 0 then some 0 else (strlen rest).map (· + 1)

/-! ## Datums, varlenas and the memory context -/

/-- A machine address; `0` is the null pointer. -/
abbrev Pointer := Nat

/-- The host's `Datum`: a pointer-sized word. -/
abbrev Datum := Nat

/-- Size of the varlena length word. -/
def VARHDRSZ : Nat := 4

/-- The host's `text` (a `struct varlena`): the length word, which counts the header
too, and the data bytes. -/
structure text where
  vl_len_ : Nat
  vl_dat : List Byte
deriving DecidableEq, Repr

/-- The chunks of the current memory context in allocation order; chunk number `k`
(from zero) lives at address `k + 1`, so no chunk is at the null address. -/
abbrev Heap := List text

/-- Read the chunk a pointer refers to. -/
def deref (heap : Heap) (p : Pointer) : Option text :=
  if p = 0 then none else heap[p - 1]?

/-- Write through a pointer: replace the chunk it refers to by `f` of it. -/
def poke (heap : Heap) (p : Pointer) (f : text → text) : Heap :=
  match deref heap p with
  | some t => heap.set (p - 1) (f t)
  | none => heap

/-- Host `palloc(size)`: a fresh chunk of `size` bytes in the current memory context;
the result is never the null pointer.  The fresh bytes are indeterminate in C and are
zero here. -/
def palloc (size : Nat) (heap : Heap) : Pointer × Heap :=
  (heap.length + 1, heap ++ [{ vl_len_ := 0, vl_dat := List.replicate (size - VARHDRSZ) 0 }])

/-- Host `SET_VARSIZE(ptr, len)`: store the total size in the length word. -/
def SET_VARSIZE (ptr : Pointer) (len : Nat) (heap : Heap) : Heap :=
  poke heap ptr (fun t => { t with vl_len_ := len })

/-- Host `memcpy(VARDATA(ptr), s, len)`: overwrite the first `len` data bytes. -/
def memcpy_VARDATA (ptr : Pointer) (s : List Byte) (len : Nat) (heap : Heap) : Heap :=
  poke heap ptr (fun t => { t with vl_dat := s.take len ++ t.vl_dat.drop len })

/-- Host `cstring_to_text_with_len(s, len)`:
`result = palloc(len + VARHDRSZ); SET_VARSIZE(result, len + VARHDRSZ);
memcpy(VARDATA(result), s, len); return result;` -/
def cstring_to_text_with_len (s : List Byte) (len : Nat) (heap : Heap) : Pointer × Heap :=
  let (result, heap1) := palloc (len + VARHDRSZ) heap
  let heap2 := SET_VARSIZE result (len + VARHDRSZ) heap1
  let heap3 := memcpy_VARDATA result s len heap2
  (result, heap3)

/-- Host `cstring_to_text(s)`: `cstring_to_text_with_len(s, strlen(s))`. -/
def cstring_to_text (s : List Byte) (heap : Heap) : Option (Pointer × Heap) :=
  match strlen s with
  | some len => some (cstring_to_text_with_len s len heap)
  | none => none

/-- Host `PointerGetDatum`: a cast. -/
def PointerGetDatum (p : Pointer) : Datum := p

/-- Host `DatumGetTextPP` for a plain (not toasted) value: follow the pointer. -/
def DatumGetTextPP (heap : Heap) (d : Datum) : Option text :=
  deref heap d

/-- Host `VARSIZE_ANY_EXHDR`: the number of data bytes of a plain varlena. -/
def VARSIZE_ANY_EXHDR (t : text) : Nat :=
  t.vl_len_ - VARHDRSZ

/-- Host `VARDATA_ANY`: the data bytes of a plain varlena. -/
def VARDATA_ANY (t : text) : List Byte :=
  t.vl_dat

/-! ## The call info -/

/-- Host `NullableDatum`: an argument value and its null flag. -/
structure NullableDatum where
  value : Datum
  isnull : Bool
deriving DecidableEq, Repr

/-- Host `FunctionCallInfoBaseData`, the object `fcinfo` points to. -/
structure FunctionCallInfoBaseData where
  flinfo : Pointer
  context : Pointer
  resultinfo : Pointer
  fncollation : Nat
  isnull : Bool
  nargs : Int
  args : List NullableDatum
deriving DecidableEq, Repr

/-- What a call leaves behind: the returned datum, the call info and the memory
context after the call. -/
structure CallResult where
  datum : Datum
  fcinfo : FunctionCallInfoBaseData
  heap : Heap
deriving DecidableEq, Repr

/-- Host `PG_RETURN_TEXT_P(x)`: `return PointerGetDatum(x)`.  The call info is not
written (unlike `PG_RETURN_NULL`, which sets `fcinfo->isnull`). -/
def PG_RETURN_TEXT_P (x : Pointer) (fcinfo : FunctionCallInfoBaseData) (heap : Heap) :
    CallResult :=
  { datum := PointerGetDatum x, fcinfo := fcinfo, heap := heap }

/-! ## The function -/

/-- The function `minnal_version` of `pg_minnal.cpp`; the macro `MINNAL_VERSION` is
the first parameter. -/
def minnal_version (MINNAL_VERSION : CString) (fcinfo : FunctionCallInfoBaseData)
    (heap : Heap) : Option CallResult :=
  let version := MINNAL_VERSION.storage
  match cstring_to_text version heap with
  | some (p, heap1) => some (PG_RETURN_TEXT_P p fcinfo heap1)
  | none => none

/-- The text the caller reads through the datum a call returns. -/
def returnedText (V : CString) (fcinfo : FunctionCallInfoBaseData) (heap : Heap) :
    Option text :=
  match minnal_version V fcinfo heap with
  | some r => DatumGetTextPP r.heap r.datum
  | none => none

/-- A run of invocations, one per call info of the list, each in the memory context
the previous one left; the result is the memory context after the last. -/
def invocations (V : CString) : List FunctionCallInfoBaseData → Heap → Option Heap
  | [], heap => some heap
  | fcinfo :: rest, heap =>
    match minnal_version V fcinfo heap with
    | some r => invocations V rest r.heap
    | none => none

/-! ## Concrete builds and calls -/

/-- The version string "0.4.0". -/
def version_0_4_0 : CString := ⟨[48, 46, 52, 46, 48], by decide⟩

/-- The version string "1.2.3". -/
def version_1_2_3 : CString := ⟨[49, 46, 50, 46, 51], by decide⟩

/-- The empty version string, the literal `""`. -/
def version_empty : CString := ⟨[], by decide⟩

/-- A call with no arguments, as the host issues it for `SELECT minnal_version()`. -/
def call_noargs : FunctionCallInfoBaseData :=
  { flinfo := 4096, context := 0, resultinfo := 0, fncollation := 0, isnull := false,
    nargs := 0, args := [] }

/-- A call that carries two arguments, one of them null. -/
def call_twoargs : FunctionCallInfoBaseData :=
  { flinfo := 4096, context := 0, resultinfo := 0, fncollation := 100, isnull := false,
    nargs := 2, args := [⟨7, false⟩, ⟨0, true⟩] }

/-! ## Lemmas on the host model -/

/-- On a buffer that holds NUL-free bytes followed by a NUL, strlen finds the NUL and
returns the number of bytes before it. -/
theorem strlen_append_nul (l : List Byte) (h : (0 : Byte) ∉ l) (tail : List Byte) :
    strlen (l ++ 0 :: tail) = some l.length := by
  induction l with
  | nil => simp [strlen]
  | cons c rest ih =>
    have hc : c ≠ 0 := fun e => h (by simp [e])
    have hrest : (0 : Byte) ∉ rest := fun m => h (List.mem_cons_of_mem _ m)
    simp [strlen, hc, ih hrest]

/-- The length strlen reports for the storage of a C string is the length of the
string. -/
theorem strlen_storage (V : CString) : strlen V.storage = some V.bytes.length := by
  unfold CString.storage
  exact strlen_append_nul V.bytes V.no_nul []

/-- The pointer palloc hands out refers to the chunk it appended. -/
theorem deref_fresh (heap : Heap) (c : text) :
    deref (heap ++ [c]) (heap.length + 1) = some c := by
  simp [deref]

/-- A pointer that referred to a chunk before an allocation refers to the same chunk
after it. -/
theorem deref_append_of_deref (heap : Heap) (c : text) (p : Pointer) (t : text)
    (h : deref heap p = some t) : deref (heap ++ [c]) p = some t := by
  unfold deref at h ⊢
  by_cases hp : p = 0
  · simp [hp] at h
  · simp only [hp, if_false] at h ⊢
    have hlt : p - 1 < heap.length := by
      rcases Nat.lt_or_ge (p - 1) heap.length with hl | hl
      · exact hl
      · rw [List.getElem?_eq_none hl] at h
        cases h
    rw [List.getElem?_append_left hlt]
    exact h

/-- Writing through the pointer of the newest chunk changes that chunk only. -/
theorem poke_fresh (heap : Heap) (c : text) (f : text → text) :
    poke (heap ++ [c]) (heap.length + 1) f = heap ++ [f c] := by
  unfold poke
  rw [deref_fresh]
  simp

/-- The text cstring_to_text_with_len builds when the length is within the
buffer: a new last chunk with length word len + VARHDRSZ and the first len bytes. -/
theorem cstring_to_text_with_len_eq (s : List Byte) (len : Nat) (heap : Heap) :
    cstring_to_text_with_len s len heap
      = (heap.length + 1, heap ++ [⟨len + VARHDRSZ, s.take len⟩]) := by
  simp [cstring_to_text_with_len, palloc, SET_VARSIZE, memcpy_VARDATA, poke_fresh]

/-- The whole effect of one call: the datum is the address of a new last chunk that
holds the version bytes, and the call info is handed back as it came. -/
theorem minnal_version_eq (V : CString) (fcinfo : FunctionCallInfoBaseData) (heap : Heap) :
    minnal_version V fcinfo heap
      = some ⟨heap.length + 1, fcinfo, heap ++ [⟨V.bytes.length + VARHDRSZ, V.bytes⟩]⟩ := by
  have htake : V.storage.take V.bytes.length = V.bytes := by
    simp [CString.storage]
  simp only [minnal_version, cstring_to_text, strlen_storage, cstring_to_text_with_len_eq,
    PG_RETURN_TEXT_P, PointerGetDatum, htake]

/-- The text read through the returned datum. -/
theorem returnedText_eq (V : CString) (fcinfo : FunctionCallInfoBaseData) (heap : Heap) :
    returnedText V fcinfo heap = some ⟨V.bytes.length + VARHDRSZ, V.bytes⟩ := by
  simp [returnedText, minnal_version_eq, DatumGetTextPP, deref_fresh]

/-- A run of invocations always completes. -/
theorem invocations_some (V : CString) (calls : List FunctionCallInfoBaseData)
    (heap : Heap) : ∃ heap1, invocations V calls heap = some heap1 := by
  induction calls generalizing heap with
  | nil => exact ⟨heap, rfl⟩
  | cons fcinfo rest ih =>
    simp only [invocations, minnal_version_eq]
    exact ih _

/-! ## The properties of minnal_version -/

/-- C1: for every build-time version string V and every call info, minnal_version
returns a datum that points to a text whose data bytes are exactly the bytes of V, in
order, and whose data length is the length of V.  Built with "0.4.0" the text is
"0.4.0"; built with "1.2.3" it is "1.2.3". -/
theorem minnal_version_returns_version (V : CString) (fcinfo : FunctionCallInfoBaseData)
    (heap : Heap) :
    (∃ r t, minnal_version V fcinfo heap = some r ∧
      DatumGetTextPP r.heap r.datum = some t ∧
      VARDATA_ANY t = V.bytes ∧
      VARSIZE_ANY_EXHDR t = V.bytes.length ∧
      (VARDATA_ANY t).length = V.bytes.length) ∧
    (returnedText version_0_4_0 fcinfo heap).map VARDATA_ANY = some [48, 46, 52, 46, 48] ∧
    (returnedText version_1_2_3 fcinfo heap).map VARDATA_ANY = some [49, 46, 50, 46, 51] := by
  refine ⟨⟨_, ⟨V.bytes.length + VARHDRSZ, V.bytes⟩, minnal_version_eq V fcinfo heap, ?_, rfl,
    ?_, rfl⟩, ?_, ?_⟩
  · exact deref_fresh heap _
  · simp [VARSIZE_ANY_EXHDR]
  · rw [returnedText_eq]; rfl
  · rw [returnedText_eq]; rfl

/-- C2: for a fixed build, any two invocations return equal text values, whatever
their call infos are and whatever runs of invocations came before each of them; the
text is determined by the version string alone. -/
theorem minnal_version_stable (V : CString)
    (before1 before2 : List FunctionCallInfoBaseData)
    (fcinfo1 fcinfo2 : FunctionCallInfoBaseData) (heap1 heap2 : Heap) :
    ∃ h1 h2 t, invocations V before1 heap1 = some h1 ∧
      invocations V before2 heap2 = some h2 ∧
      returnedText V fcinfo1 h1 = some t ∧
      returnedText V fcinfo2 h2 = some t ∧
      t = ⟨V.bytes.length + VARHDRSZ, V.bytes⟩ := by
  obtain ⟨h1, e1⟩ := invocations_some V before1 heap1
  obtain ⟨h2, e2⟩ := invocations_some V before2 heap2
  exact ⟨h1, h2, _, e1, e2, returnedText_eq V fcinfo1 h1, returnedText_eq V fcinfo2 h2, rfl⟩

/-- C3: for every build and every call info, minnal_version returns a datum that is
not the null pointer and that points to a text value, and it leaves the is-null flag
of the call info as it found it. -/
theorem minnal_version_nonnull (V : CString) (fcinfo : FunctionCallInfoBaseData)
    (heap : Heap) :
    ∃ r t, minnal_version V fcinfo heap = some r ∧
      r.datum ≠ 0 ∧
      DatumGetTextPP r.heap r.datum = some t ∧
      r.fcinfo.isnull = fcinfo.isnull := by
  refine ⟨_, _, minnal_version_eq V fcinfo heap, ?_, deref_fresh heap _, rfl⟩
  exact Nat.succ_ne_zero _

/-- C4, as stated, fails: built with the empty version string, minnal_version returns
a text with no data bytes, so not every build returns a non-empty string. -/
theorem minnal_version_empty_build :
    (returnedText version_empty call_noargs []).map VARSIZE_ANY_EXHDR = some 0 ∧
    (returnedText version_empty call_noargs []).map VARDATA_ANY = some [] ∧
    ¬ (∀ (V : CString) (fcinfo : FunctionCallInfoBaseData) (heap : Heap),
        ∃ t, returnedText V fcinfo heap = some t ∧ 0 < VARSIZE_ANY_EXHDR t) := by
  refine ⟨by decide, by decide, ?_⟩
  intro h
  obtain ⟨t, ht, hpos⟩ := h version_empty call_noargs []
  rw [returnedText_eq] at ht
  cases ht
  exact absurd hpos (by decide)

/-- C4, amended: for every build whose version string is not empty and every call
info, the text minnal_version returns has more than zero data bytes. -/
theorem minnal_version_nonempty (V : CString) (fcinfo : FunctionCallInfoBaseData)
    (heap : Heap) (hV : V.bytes ≠ []) :
    ∃ t, returnedText V fcinfo heap = some t ∧
      0 < VARSIZE_ANY_EXHDR t ∧
      0 < (VARDATA_ANY t).length := by
  have hlen : 0 < V.bytes.length := List.length_pos.mpr hV
  refine ⟨_, returnedText_eq V fcinfo heap, ?_, hlen⟩
  simpa [VARSIZE_ANY_EXHDR] using hlen

/-- The amended C4 at the build "0.4.0" and a call without arguments. -/
theorem minnal_version_nonempty_witness :
    version_0_4_0.bytes ≠ [] ∧
    ∃ t, returnedText version_0_4_0 call_noargs [] = some t ∧
      0 < VARSIZE_ANY_EXHDR t ∧
      0 < (VARDATA_ANY t).length :=
  ⟨by decide, minnal_version_nonempty version_0_4_0 call_noargs [] (by decide)⟩

/-- C5: minnal_version returns normally for every call info, also one that carries
arguments: whatever argument count and argument values the call info holds, the call
yields the same datum and the same memory as the call without arguments, and the text
is the version. -/
theorem minnal_version_ignores_arguments (V : CString) (fcinfo : FunctionCallInfoBaseData)
    (heap : Heap) (nargs : Int) (args : List NullableDatum) :
    ∃ r r0, minnal_version V { fcinfo with nargs := nargs, args := args } heap = some r ∧
      minnal_version V { fcinfo with nargs := 0, args := [] } heap = some r0 ∧
      r.datum = r0.datum ∧
      r.heap = r0.heap ∧
      (DatumGetTextPP r.heap r.datum).map VARDATA_ANY = some V.bytes := by
  refine ⟨_, _, minnal_version_eq V _ heap, minnal_version_eq V _ heap, rfl, rfl, ?_⟩
  rw [DatumGetTextPP]
  simp only [deref_fresh]
  rfl

/-- C6: minnal_version leaves the call info as it was (argument count, arguments and
is-null flag included); its one effect is the new text the returned datum points to,
every chunk allocated before is still there unchanged, and a later call still reads
the same version string. -/
theorem minnal_version_frame (V : CString) (fcinfo : FunctionCallInfoBaseData)
    (heap : Heap) :
    ∃ r t, minnal_version V fcinfo heap = some r ∧
      r.fcinfo = fcinfo ∧
      r.fcinfo.nargs = fcinfo.nargs ∧
      r.fcinfo.args = fcinfo.args ∧
      r.fcinfo.isnull = fcinfo.isnull ∧
      r.heap = heap ++ [t] ∧
      DatumGetTextPP r.heap r.datum = some t ∧
      (∀ p u, deref heap p = some u → deref r.heap p = some u) ∧
      (∀ fcinfo2, (returnedText V fcinfo2 r.heap).map VARDATA_ANY = some V.bytes) := by
  refine ⟨_, _, minnal_version_eq V fcinfo heap, rfl, rfl, rfl, rfl, rfl, deref_fresh heap _,
    ?_, ?_⟩
  · intro p u hp
    exact deref_append_of_deref heap _ p u hp
  · intro fcinfo2
    rw [returnedText_eq]
    rfl

end Minnal
